import Mathlib

/-!
Shallow embedding of the `ss58-registry` crate: the build-time registry
validator and identifier deriver (`build.rs`), the runtime address-format
facade (`src/address_format.rs`, `src/registry.rs`, `src/error.rs`) and the
token formatter (`src/token.rs`).  Machine integers (`u16`, `u8`, `u128`)
are modelled as `Nat`; the operations below never overflow them except
where a claim is explicitly about the overflow guard, which is stated as a
side condition on the `Nat` arithmetic.  Parts of the pipeline whose source
is generated at build time (the static tables of `registry_gen.rs`, the
prefix-run compression) are modelled from the specification and are marked
as such in their doc comments.
-/

/-- One registry record, `struct AccountType` of `build.rs` (the `u16`
field `prefix` is rendered `prefix_` because `prefix` is a Lean keyword). -/
structure AccountType where
  prefix_ : Nat
  network : String
  display_name : String
  standard_account : Option String
  symbols : List String
  decimals : List Nat
  website : Option String
deriving DecidableEq

/-- The closed set of signature kinds accepted for `standardAccount` in
`Registry::is_valid` of `build.rs`. -/
def sigOk (sig : String) : Bool :=
  sig = "Sr25519" || sig = "Ed25519" || sig = "secp256k1" || sig = "*25519"

/-- The loop of `Registry::is_valid` (`build.rs`): the two `HashSet`s of
already seen prefixes and networks are passed explicitly; the first failing
check aborts with the corresponding error message. -/
def isValidFrom : List Nat → List String → List AccountType → Except String Unit
  | _, _, [] => Except.ok ()
  | usedPrefixes, usedNetworks, a :: rest =>
    if a.prefix_ ∈ usedPrefixes then
      Except.error ("prefixes must be unique but this prefix clashes with an earlier record")
    else if a.network ∈ usedNetworks then
      Except.error ("networks must be unique but this network clashes with an earlier record")
    else if a.network.data.any (fun c => c.isWhitespace) then
      Except.error ("network can not have whitespace in")
    else if a.decimals.length ≠ a.symbols.length then
      Except.error ("decimals must be specified for each symbol")
    else
      match a.standard_account with
      | some sig =>
        if sigOk sig then isValidFrom (a.prefix_ :: usedPrefixes) (a.network :: usedNetworks) rest
        else Except.error ("Unknown sig type in standardAccount")
      | none => isValidFrom (a.prefix_ :: usedPrefixes) (a.network :: usedNetworks) rest

/-- `Registry::is_valid` of `build.rs`, starting from empty seen-sets. -/
def Registry.is_valid (regs : List AccountType) : Except String Unit :=
  isValidFrom [] [] regs

/-- The per-record checks of `Registry::is_valid` that do not involve the
seen-sets, bundled for the validator characterisation: no whitespace in
`network`, `decimals` and `symbols` of equal length, and a known signature
kind when `standardAccount` is present. -/
def AccountType.rowChecks (a : AccountType) : Bool :=
  !(a.network.data.any (fun c => c.isWhitespace)) &&
  (a.decimals.length == a.symbols.length) &&
  (match a.standard_account with
   | some sig => sigOk sig
   | none => true)

/-- Modelled from the spec: the pascal-case transformation of §4.2 (the
source delegates to the external `inflector` crate, whose code is not part
of this repository): split on non-alphanumeric characters and case
boundaries, uppercase the first code point of each segment, concatenate.
The boolean argument tells whether the next alphanumeric character starts a
new segment; a character at a lower-to-upper case boundary starts a segment
whose first code point is already upper case, so only separator-driven
segment starts change a character. -/
def pascalGo : Bool → List Char → List Char
  | _, [] => []
  | newSeg, c :: cs =>
    if c.isAlphanum then
      (if newSeg then c.toUpper else c) :: pascalGo false cs
    else
      pascalGo true cs

/-- Modelled from the spec: pascal-case of a string, §4.2 step 1. -/
def to_pascal_case (s : String) : String :=
  ⟨pascalGo true s.data⟩

/-- `AccountType::name` of `build.rs`: the pascal-cased network with the
literal suffix `Account` appended. -/
def AccountType.name (a : AccountType) : String :=
  to_pascal_case a.network ++ "Account"

/-- `AccountType::is_reserved` of `build.rs`: a record is reserved when it
has no `standardAccount`. -/
def AccountType.is_reserved (a : AccountType) : Bool :=
  a.standard_account.isNone

/-- Modelled from the spec: the registry document contents.  The registry
JSON file is not among the source files; §8 of the spec fixes the records
used by every concrete scenario: `polkadot` (prefix 0), `kusama` (prefix
2), `darwinia` (prefix 18, symbols `RING`, `KTON`), `reserved46` (prefix
46, no `standardAccount`) and `polkadex` (prefix 89). -/
def registryData : List AccountType :=
  [ ⟨0, "polkadot", "Polkadot Relay Chain", some ("*25519"), ["DOT"], [10],
      some ("https://polkadot.network")⟩,
    ⟨2, "kusama", "Kusama Relay Chain", some ("*25519"), ["KSM"], [12],
      some ("https://kusama.network")⟩,
    ⟨18, "darwinia", "Darwinia Network", some ("*25519"), ["RING", "KTON"], [9, 9],
      some ("https://darwinia.network")⟩,
    ⟨46, "reserved46", "This prefix is reserved.", none, [], [], none⟩,
    ⟨89, "polkadex", "Polkadex Mainnet", some ("Sr25519"), ["PDEX"], [12],
      some ("https://polkadex.trade")⟩ ]

/-- Lexicographic order on char lists by code point: the model of the
`Ord` instance of Rust `str` (byte order on UTF-8 equals code-point
order), used by the generated tables' sort and binary searches. -/
def strLtChars : List Char → List Char → Bool
  | [], [] => false
  | [], _ :: _ => true
  | _ :: _, [] => false
  | a :: as, b :: bs =>
    if a.toNat < b.toNat then true
    else if b.toNat < a.toNat then false
    else strLtChars as bs

/-- String order, model of Rust `str::cmp` seen as `<`. -/
def string_lt (a b : String) : Bool :=
  strLtChars a.data b.data

/-- Rust `Ord::cmp` for strings, from `string_lt` and equality. -/
def strOrd (a b : String) : Ordering :=
  if string_lt a b then Ordering.lt else if a = b then Ordering.eq else Ordering.gt

/-- Rust `Ord::cmp` for `u16` values modelled as `Nat`. -/
def natOrd (a b : Nat) : Ordering :=
  if a < b then Ordering.lt else if a = b then Ordering.eq else Ordering.gt

/-- Insertion step of the stable sort of records by raw `network`. -/
def insertByNetwork (a : AccountType) : List AccountType → List AccountType
  | [] => [a]
  | b :: bs =>
    if string_lt a.network b.network then a :: b :: bs else b :: insertByNetwork a bs

/-- Modelled from the spec: the table builder sorts the accepted records by
raw `network` ascending, §4.3(a). -/
def sortByNetwork : List AccountType → List AccountType
  | [] => []
  | a :: rest => insertByNetwork a (sortByNetwork rest)

/-- Insertion step of the sort of `(prefix, index)` pairs by prefix. -/
def insertByFst (a : Nat × Nat) : List (Nat × Nat) → List (Nat × Nat)
  | [] => [a]
  | b :: bs =>
    if a.1 < b.1 then a :: b :: bs else b :: insertByFst a bs

/-- Sort of `(prefix, index)` pairs ascending by first component. -/
def sortByFst : List (Nat × Nat) → List (Nat × Nat)
  | [] => []
  | a :: rest => insertByFst a (sortByFst rest)

/-- Modelled from the spec: `ALL_SS58_ADDRESS_FORMAT_NAMES` of the
generated `registry_gen.rs`, §4.3(c): the raw network strings in
sorted-by-network order. -/
def ALL_SS58_ADDRESS_FORMAT_NAMES : List String :=
  (sortByNetwork registryData).map (fun r => r.network)

/-- Modelled from the spec: `PREFIX_TO_INDEX` of the generated
`registry_gen.rs`, §4.3(d): `(prefix, index)` pairs sorted ascending by
prefix, where `index` is the record's position in the sorted-by-network
order. -/
def PREFIX_TO_INDEX : List (Nat × Nat) :=
  sortByFst (((sortByNetwork registryData).map (fun r => r.prefix_)).enum.map
    (fun p => (p.2, p.1)))

/-- Modelled from the spec: the generated enumeration
`Ss58AddressFormatRegistry`, one variant per record, §4.3(a). -/
inductive Ss58AddressFormatRegistry where
  | darwiniaAccount
  | kusamaAccount
  | polkadexAccount
  | polkadotAccount
  | reserved46Account
deriving DecidableEq

/-- Modelled from the spec: `ALL_SS58_ADDRESS_FORMATS` of
`registry_gen.rs`, §4.3(b): the variants in sorted-by-network order. -/
def ALL_SS58_ADDRESS_FORMATS : List Ss58AddressFormatRegistry :=
  [Ss58AddressFormatRegistry.darwiniaAccount,
   Ss58AddressFormatRegistry.kusamaAccount,
   Ss58AddressFormatRegistry.polkadexAccount,
   Ss58AddressFormatRegistry.polkadotAccount,
   Ss58AddressFormatRegistry.reserved46Account]

/-- `from_known_address_format` of `src/registry.rs`: each variant's
underlying discriminant equals its record's prefix. -/
def from_known_address_format : Ss58AddressFormatRegistry → Nat
  | Ss58AddressFormatRegistry.darwiniaAccount => 18
  | Ss58AddressFormatRegistry.kusamaAccount => 2
  | Ss58AddressFormatRegistry.polkadexAccount => 89
  | Ss58AddressFormatRegistry.polkadotAccount => 0
  | Ss58AddressFormatRegistry.reserved46Account => 46

/-- `struct Ss58AddressFormat` of `src/address_format.rs`: a transparent
wrapper around a `u16` prefix. -/
structure Ss58AddressFormat where
  prefix_ : Nat
deriving DecidableEq

/-- `Ss58AddressFormat::custom` of `src/address_format.rs`. -/
def Ss58AddressFormat.custom (p : Nat) : Ss58AddressFormat :=
  ⟨p⟩

/-- `impl From<Ss58AddressFormatRegistry> for Ss58AddressFormat` of
`src/address_format.rs`: store the variant's discriminant as prefix. -/
def Ss58AddressFormat.ofRegistry (v : Ss58AddressFormatRegistry) : Ss58AddressFormat :=
  ⟨from_known_address_format v⟩

/-- `struct ParseError` of `src/error.rs`: the opaque unit error. -/
structure ParseError where
deriving DecidableEq

/-- The loop of Rust `core`'s `slice::binary_search_by`, with explicit
fuel (one unit per iteration plus one; each iteration strictly shrinks
`right - left`, so `length + 1` fuel reproduces the Rust loop exactly):
`mid = left + (right - left) / 2`; `Less` continues right of `mid`,
`Greater` continues left of `mid`, `Equal` returns `Ok mid`; when the
interval empties the result is `Err left`. -/
def bsGo {α : Type} (f : α → Ordering) (d : α) (l : List α) :
    Nat → Nat → Nat → Except Nat Nat
  | 0, left, _ => Except.error left
  | fuel + 1, left, right =>
    if left < right then
      let mid := left + (right - left) / 2
      match f (l.getD mid d) with
      | Ordering.lt => bsGo f d l fuel (mid + 1) right
      | Ordering.gt => bsGo f d l fuel left mid
      | Ordering.eq => Except.ok mid
    else Except.error left

/-- Rust `slice::binary_search_by` over a list, `f` comparing an element
against the searched key. -/
def binary_search_by {α : Type} (f : α → Ordering) (d : α) (l : List α) : Except Nat Nat :=
  bsGo f d l (l.length + 1) 0 l.length

/-- `impl TryFrom<Ss58AddressFormat> for Ss58AddressFormatRegistry` of
`src/registry.rs`: binary search of the prefix in `PREFIX_TO_INDEX`, then
indexing `ALL_SS58_ADDRESS_FORMATS`; a missed search is `ParseError`. -/
def Ss58AddressFormatRegistry.tryFromFormat (x : Ss58AddressFormat) :
    Except ParseError Ss58AddressFormatRegistry :=
  match binary_search_by (fun e => natOrd e.1 x.prefix_) (0, 0) PREFIX_TO_INDEX with
  | Except.ok lookup =>
    Except.ok (ALL_SS58_ADDRESS_FORMATS.getD (PREFIX_TO_INDEX.getD lookup (0, 0)).2
      Ss58AddressFormatRegistry.darwiniaAccount)
  | Except.error _ => Except.error ⟨⟩

/-- `impl TryFrom<&str> for Ss58AddressFormatRegistry` of
`src/address_format.rs`: binary search of the name in
`ALL_SS58_ADDRESS_FORMAT_NAMES`, then indexing `ALL_SS58_ADDRESS_FORMATS`. -/
def Ss58AddressFormatRegistry.tryFromStr (x : String) :
    Except ParseError Ss58AddressFormatRegistry :=
  match binary_search_by (fun nm => strOrd nm x) ("") ALL_SS58_ADDRESS_FORMAT_NAMES with
  | Except.ok lookup =>
    Except.ok (ALL_SS58_ADDRESS_FORMATS.getD lookup Ss58AddressFormatRegistry.darwiniaAccount)
  | Except.error _ => Except.error ⟨⟩

/-- `impl TryFrom<&str> for Ss58AddressFormat` of `src/address_format.rs`:
delegate to the registry conversion and widen the result. -/
def Ss58AddressFormat.tryFromStr (x : String) : Except ParseError Ss58AddressFormat :=
  (Ss58AddressFormatRegistry.tryFromStr x).map Ss58AddressFormat.ofRegistry

/-- `impl Display for Ss58AddressFormat` of `src/address_format.rs`: the
network name found via `PREFIX_TO_INDEX` and `ALL_SS58_ADDRESS_FORMAT_NAMES`
when the prefix is known, otherwise the decimal representation of the
prefix. -/
def Ss58AddressFormat.displayStr (x : Ss58AddressFormat) : String :=
  match binary_search_by (fun e => natOrd e.1 x.prefix_) (0, 0) PREFIX_TO_INDEX with
  | Except.ok lookup =>
    ALL_SS58_ADDRESS_FORMAT_NAMES.getD (PREFIX_TO_INDEX.getD lookup (0, 0)).2 ("")
  | Except.error _ => Nat.repr x.prefix_

/-- Modelled from the spec: the reserved-prefix set of §4.3(e), the
prefixes of the records without a `standardAccount`, as computed by the
generator whose output `registry_gen.rs` is not among the source files. -/
def reserved_prefixes (regs : List AccountType) : List Nat :=
  (regs.filter (fun r => r.standard_account.isNone)).map (fun r => r.prefix_)

/-- Modelled from the spec: the generated
`Ss58AddressFormat::is_reserved` of §4.4, parameterised by the
reserved-prefix set: true iff the prefix exceeds 16384 or lies in the set. -/
def Ss58AddressFormat.isReservedWith (rs : List Nat) (x : Ss58AddressFormat) : Bool :=
  decide (16384 < x.prefix_) || decide (x.prefix_ ∈ rs)

/-- Modelled from the spec: `Ss58AddressFormat::is_reserved` over the
registry's reserved-prefix set. -/
def Ss58AddressFormat.is_reserved (x : Ss58AddressFormat) : Bool :=
  Ss58AddressFormat.isReservedWith (reserved_prefixes registryData) x

/-- Rust `u16::from_str` (used by the numeric fallback of the legacy
generated string conversion): an optional leading `+`, then at least one
decimal digit, value at most 65535. -/
def parse_u16 (s : String) : Option Nat :=
  match s.data with
  | [] => none
  | c :: cs =>
    let digits := if c = '+' then cs else c :: cs
    if digits = [] then none
    else if digits.all (fun d => d.isDigit) then
      let v := digits.foldl (fun acc d => acc * 10 + (d.toNat - 48)) 0
      if v < 65536 then some v else none
    else none

/-- `struct Token` of `src/token.rs` (`decimals: u8`, `amount: u128`). -/
structure Token where
  name : String
  decimals : Nat
  amount : Nat
deriving DecidableEq

/-- Digit-grouping step over the reversed digit list: a `_` after every
three digits, the model of `num_format`'s `ToFormattedString` with
separator `_` (the crate is external to this repository). -/
def insertSep : List Char → List Char
  | d1 :: d2 :: d3 :: d4 :: rest => d1 :: d2 :: d3 :: '_' :: insertSep (d4 :: rest)
  | l => l

/-- Decimal rendering of a number with `_` as thousands separator. -/
def to_formatted_string (n : Nat) : String :=
  ⟨(insertSep (Nat.repr n).data.reverse).reverse⟩

/-- The `{:0>3}` format: the decimal rendering left-padded with `0` to
width three. -/
def pad3 (n : Nat) : String :=
  ⟨List.replicate (3 - (Nat.repr n).length) '0' ++ (Nat.repr n).data⟩

/-- `u128::pow(10, decimals)` of the token formatters; on `Nat` it never
overflows, the u128 range condition is stated separately. -/
def token_multiplier (decimals : Nat) : Nat :=
  10 ^ decimals

/-- The divisor `multiplier / 1000` used for the three fractional digits in
both token formatters; it is zero for fewer than three decimals. -/
def token_fraction_divisor (decimals : Nat) : Nat :=
  token_multiplier decimals / 1000

/-- `impl Display for Token` of `src/token.rs`: grouped integer part,
comma, three zero-padded fractional digits, space, name. -/
def Token.display (t : Token) : String :=
  to_formatted_string (t.amount / token_multiplier t.decimals) ++ "," ++
    pad3 (t.amount % token_multiplier t.decimals / token_fraction_divisor t.decimals) ++
    " " ++ t.name

/-- `impl Debug for Token` of `src/token.rs`: as `Display` but with the
integer part ungrouped and the grouped raw amount appended in parentheses. -/
def Token.debugStr (t : Token) : String :=
  Nat.repr (t.amount / token_multiplier t.decimals) ++ "," ++
    pad3 (t.amount % token_multiplier t.decimals / token_fraction_divisor t.decimals) ++
    " " ++ t.name ++ " (" ++ to_formatted_string t.amount ++ ")"

/-- Modelled from the spec: the walk of the prefix-run compression,
§4.3(f), on the tail of the input; `start` opens the current run and
`prev` is the last element taken into it.  A successor element extends the
run; any other element closes it, emitting `(start, prev)`, and opens a
new run. -/
def consRunsGo (start prev : Nat) : List Nat → List Nat × List Nat
  | [] => ([start], [prev])
  | x :: xs =>
    if x = prev + 1 then consRunsGo start x xs
    else ((consRunsGo x x xs).1.cons start, (consRunsGo x x xs).2.cons prev)

/-- Modelled from the spec: `consecutive_runs`, §4.3(f): compress a sorted
prefix list into the parallel arrays of run starts and run ends; empty
input produces empty tables. -/
def consecutive_runs : List Nat → List Nat × List Nat
  | [] => ([], [])
  | x :: xs => consRunsGo x x xs

/-! Helper lemmas: ASCII characters and the pascal-case transformation. -/

theorem char_isAlphanum_iff (c : Char) : c.isAlphanum = true ↔
    ((65 ≤ c.toNat ∧ c.toNat ≤ 90) ∨ (97 ≤ c.toNat ∧ c.toNat ≤ 122)) ∨
      (48 ≤ c.toNat ∧ c.toNat ≤ 57) := by
  simp only [Char.isAlphanum, Char.isAlpha, Char.isUpper, Char.isLower, Char.isDigit,
    Bool.or_eq_true, Bool.and_eq_true, decide_eq_true_iff]
  exact Iff.rfl

theorem char_toNat_ofNat_valid (n : Nat) (h : n.isValidChar) : (Char.ofNat n).toNat = n := by
  simp only [Char.ofNat, dif_pos h]
  rfl

theorem char_toUpper_toNat (c : Char) :
    (Char.toUpper c).toNat =
      if 97 ≤ c.toNat ∧ c.toNat ≤ 122 then c.toNat - 32 else c.toNat := by
  show (if 97 ≤ c.toNat ∧ c.toNat ≤ 122 then Char.ofNat (c.toNat - 32) else c).toNat = _
  by_cases h : 97 ≤ c.toNat ∧ c.toNat ≤ 122
  · rw [if_pos h, if_pos h, char_toNat_ofNat_valid _ (Or.inl (by omega))]
  · rw [if_neg h, if_neg h]

theorem char_toUpper_of_not_lower (c : Char) (h : ¬(97 ≤ c.toNat ∧ c.toNat ≤ 122)) :
    Char.toUpper c = c := by
  show (if 97 ≤ c.toNat ∧ c.toNat ≤ 122 then Char.ofNat (c.toNat - 32) else c) = c
  rw [if_neg h]

theorem char_toUpper_idem (c : Char) : Char.toUpper (Char.toUpper c) = Char.toUpper c := by
  apply char_toUpper_of_not_lower
  have h := char_toUpper_toNat c
  by_cases hc : 97 ≤ c.toNat ∧ c.toNat ≤ 122
  · rw [if_pos hc] at h
    omega
  · rw [if_neg hc] at h
    omega

theorem char_isAlphanum_toUpper (c : Char) (h : c.isAlphanum = true) :
    (Char.toUpper c).isAlphanum = true := by
  rw [char_isAlphanum_iff] at h ⊢
  have ht := char_toUpper_toNat c
  by_cases hc : 97 ≤ c.toNat ∧ c.toNat ≤ 122
  · rw [if_pos hc] at ht
    omega
  · rw [if_neg hc] at ht
    omega

theorem pascalGo_all_alphanum :
    ∀ (l : List Char) (b : Bool) (c : Char), c ∈ pascalGo b l → c.isAlphanum = true := by
  intro l
  induction l with
  | nil => intro b c hc; simp [pascalGo] at hc
  | cons a as ih =>
    intro b c hc
    rw [pascalGo] at hc
    by_cases ha : a.isAlphanum = true
    · rw [if_pos ha] at hc
      rcases List.mem_cons.mp hc with h | h
      · subst h
        cases b with
        | false => simpa using ha
        | true => simpa using char_isAlphanum_toUpper a ha
      · exact ih false c h
    · rw [if_neg ha] at hc
      exact ih true c hc

theorem pascalGo_false_id (l : List Char) (h : ∀ c ∈ l, c.isAlphanum = true) :
    pascalGo false l = l := by
  induction l with
  | nil => rfl
  | cons a as ih =>
    rw [pascalGo, if_pos (h a (List.mem_cons_self a as))]
    simp only [if_neg (by simp : ¬(false = true))]
    rw [ih (fun c hc => h c (List.mem_cons_of_mem a hc))]

theorem pascalGo_true_head (l : List Char) :
    pascalGo true l = [] ∨
      ∃ (c : Char) (cs : List Char), pascalGo true l = Char.toUpper c :: cs := by
  induction l with
  | nil => exact Or.inl rfl
  | cons a as ih =>
    rw [pascalGo]
    by_cases ha : a.isAlphanum = true
    · rw [if_pos ha]
      exact Or.inr ⟨a, pascalGo false as, by simp⟩
    · rw [if_neg ha]
      exact ih

theorem pascal_chars_idem (l : List Char) :
    pascalGo true (pascalGo true l) = pascalGo true l := by
  rcases pascalGo_true_head l with h | ⟨c, cs, h⟩
  · rw [h]
    rfl
  · have halnum : ∀ x ∈ pascalGo true l, x.isAlphanum = true :=
      fun x hx => pascalGo_all_alphanum l true x hx
    rw [h]
    have hc : (c.toUpper).isAlphanum = true := halnum _ (h ▸ List.mem_cons_self _ _)
    have hcs : ∀ x ∈ cs, x.isAlphanum = true :=
      fun x hx => halnum x (h ▸ List.mem_cons_of_mem _ hx)
    rw [pascalGo, if_pos hc]
    simp only [ite_true]
    rw [char_toUpper_idem, pascalGo_false_id cs hcs]

theorem to_pascal_case_idem (s : String) :
    to_pascal_case (to_pascal_case s) = to_pascal_case s := by
  show (⟨pascalGo true (⟨pascalGo true s.data⟩ : String).data⟩ : String) = _
  rw [show (⟨pascalGo true s.data⟩ : String).data = pascalGo true s.data from rfl]
  rw [pascal_chars_idem]
  rfl

/-! Helper lemmas: binary search only answers `Ok` at an index holding the
searched key. -/

theorem strOrd_eq (a b : String) (h : strOrd a b = Ordering.eq) : a = b := by
  rw [strOrd] at h
  by_cases h1 : string_lt a b = true
  · rw [if_pos h1] at h
    exact absurd h (by simp)
  · rw [if_neg h1] at h
    by_cases h2 : a = b
    · exact h2
    · rw [if_neg h2] at h
      exact absurd h (by simp)

theorem natOrd_eq (a b : Nat) (h : natOrd a b = Ordering.eq) : a = b := by
  rw [natOrd] at h
  by_cases h1 : a < b
  · rw [if_pos h1] at h
    exact absurd h (by simp)
  · rw [if_neg h1] at h
    by_cases h2 : a = b
    · exact h2
    · rw [if_neg h2] at h
      exact absurd h (by simp)

theorem bsGo_ok {α : Type} (f : α → Ordering) (d : α) (l : List α) :
    ∀ (fuel left right i : Nat), right ≤ l.length →
      bsGo f d l fuel left right = Except.ok i →
      i < l.length ∧ f (l.getD i d) = Ordering.eq := by
  intro fuel
  induction fuel with
  | zero =>
    intro left right i _ h
    exact absurd h (by simp [bsGo])
  | succ n ih =>
    intro left right i hr h
    rw [bsGo] at h
    by_cases hlr : left < right
    · rw [if_pos hlr] at h
      simp only at h
      rcases hf : f (l.getD (left + (right - left) / 2) d) with _ | _ | _ <;> rw [hf] at h
      · exact ih (left + (right - left) / 2 + 1) right i hr h
      · have heq : i = left + (right - left) / 2 := by
          cases h
          rfl
        subst heq
        exact ⟨by omega, hf⟩
      · exact ih left (left + (right - left) / 2) i (by omega) h
    · rw [if_neg hlr] at h
      exact absurd h (by simp)

theorem binary_search_by_ok {α : Type} (f : α → Ordering) (d : α) (l : List α) (i : Nat)
    (h : binary_search_by f d l = Except.ok i) :
    i < l.length ∧ f (l.getD i d) = Ordering.eq :=
  bsGo_ok f d l (l.length + 1) 0 l.length i (Nat.le_refl _) h


/-! Helper lemmas: characterisation of the validator as pairwise-unique
prefixes, pairwise-unique raw networks, and the per-record checks. -/

theorem seen_shift_iff (a : AccountType) (rest : List AccountType)
    (usedP : List Nat) (usedN : List String)
    (h1 : a.prefix_ ∉ usedP) (h2 : a.network ∉ usedN)
    (haChecks : AccountType.rowChecks a = true) :
    (((a :: rest).map AccountType.prefix_).Nodup ∧
     ((a :: rest).map AccountType.network).Nodup ∧
     (∀ r ∈ a :: rest, AccountType.rowChecks r = true) ∧
     (∀ r ∈ a :: rest, r.prefix_ ∉ usedP ∧ r.network ∉ usedN)) ↔
    ((rest.map AccountType.prefix_).Nodup ∧
     (rest.map AccountType.network).Nodup ∧
     (∀ r ∈ rest, AccountType.rowChecks r = true) ∧
     (∀ r ∈ rest, r.prefix_ ∉ a.prefix_ :: usedP ∧ r.network ∉ a.network :: usedN)) := by
  constructor
  · rintro ⟨hp, hn, hc, hu⟩
    simp only [List.map_cons, List.nodup_cons] at hp hn
    refine ⟨hp.2, hn.2, fun r hr => hc r (List.mem_cons_of_mem _ hr), fun r hr => ?_⟩
    have hu' := hu r (List.mem_cons_of_mem _ hr)
    constructor
    · intro hmem
      rcases List.mem_cons.mp hmem with he | hm
      · exact hp.1 (List.mem_map.mpr ⟨r, hr, he⟩)
      · exact hu'.1 hm
    · intro hmem
      rcases List.mem_cons.mp hmem with he | hm
      · exact hn.1 (List.mem_map.mpr ⟨r, hr, he⟩)
      · exact hu'.2 hm
  · rintro ⟨hp, hn, hc, hu⟩
    refine ⟨?_, ?_, ?_, ?_⟩
    · simp only [List.map_cons, List.nodup_cons]
      refine ⟨fun hmem => ?_, hp⟩
      rcases List.mem_map.mp hmem with ⟨r, hr, hrp⟩
      exact (hu r hr).1 (by simp [hrp])
    · simp only [List.map_cons, List.nodup_cons]
      refine ⟨fun hmem => ?_, hn⟩
      rcases List.mem_map.mp hmem with ⟨r, hr, hrp⟩
      exact (hu r hr).2 (by simp [hrp])
    · intro r hr
      rcases List.mem_cons.mp hr with hre | hrm
      · exact hre ▸ haChecks
      · exact hc r hrm
    · intro r hr
      rcases List.mem_cons.mp hr with hre | hrm
      · exact hre ▸ ⟨h1, h2⟩
      · have := hu r hrm
        exact ⟨fun hmem => this.1 (List.mem_cons_of_mem _ hmem),
               fun hmem => this.2 (List.mem_cons_of_mem _ hmem)⟩

theorem isValidFrom_ok_iff :
    ∀ (regs : List AccountType) (usedP : List Nat) (usedN : List String),
      isValidFrom usedP usedN regs = Except.ok () ↔
        ((regs.map AccountType.prefix_).Nodup ∧
         (regs.map AccountType.network).Nodup ∧
         (∀ r ∈ regs, AccountType.rowChecks r = true) ∧
         (∀ r ∈ regs, r.prefix_ ∉ usedP ∧ r.network ∉ usedN)) := by
  intro regs
  induction regs with
  | nil =>
    intro usedP usedN
    simp [isValidFrom]
  | cons a rest ih =>
    intro usedP usedN
    rw [isValidFrom]
    by_cases h1 : a.prefix_ ∈ usedP
    · rw [if_pos h1]
      constructor
      · intro h
        exact absurd h (by simp)
      · intro h
        exact absurd h1 (h.2.2.2 a (List.mem_cons_self a rest)).1.elim
    · rw [if_neg h1]
      by_cases h2 : a.network ∈ usedN
      · rw [if_pos h2]
        constructor
        · intro h
          exact absurd h (by simp)
        · intro h
          exact absurd h2 (h.2.2.2 a (List.mem_cons_self a rest)).2.elim
      · rw [if_neg h2]
        by_cases h3 : a.network.data.any (fun c => c.isWhitespace) = true
        · rw [if_pos h3]
          constructor
          · intro h
            exact absurd h (by simp)
          · intro h
            have hcheck := h.2.2.1 a (List.mem_cons_self a rest)
            rw [AccountType.rowChecks] at hcheck
            simp only [Bool.and_eq_true, Bool.not_eq_true'] at hcheck
            rw [hcheck.1.1] at h3
            exact absurd h3 (by simp)
        · rw [if_neg h3]
          by_cases h4 : a.decimals.length ≠ a.symbols.length
          · rw [if_pos h4]
            constructor
            · intro h
              exact absurd h (by simp)
            · intro h
              have hcheck := h.2.2.1 a (List.mem_cons_self a rest)
              rw [AccountType.rowChecks] at hcheck
              simp only [Bool.and_eq_true, beq_iff_eq] at hcheck
              exact absurd hcheck.1.2 h4
          · rw [if_neg h4]
            rcases hsa : a.standard_account with _ | sig
            · simp only []
              have haChecks : AccountType.rowChecks a = true := by
                rw [AccountType.rowChecks, hsa]
                simp only [Bool.and_eq_true, Bool.not_eq_true', beq_iff_eq]
                exact ⟨⟨by simpa using h3, by omega⟩, trivial⟩
              rw [ih (a.prefix_ :: usedP) (a.network :: usedN)]
              exact (seen_shift_iff a rest usedP usedN h1 h2 haChecks).symm
            · simp only []
              by_cases h5 : sigOk sig = true
              · rw [if_pos h5]
                have haChecks : AccountType.rowChecks a = true := by
                  rw [AccountType.rowChecks, hsa]
                  simp only [Bool.and_eq_true, Bool.not_eq_true', beq_iff_eq]
                  exact ⟨⟨by simpa using h3, by omega⟩, h5⟩
                rw [ih (a.prefix_ :: usedP) (a.network :: usedN)]
                exact (seen_shift_iff a rest usedP usedN h1 h2 haChecks).symm
              · rw [if_neg h5]
                constructor
                · intro h
                  exact absurd h (by simp)
                · intro h
                  have hcheck := h.2.2.1 a (List.mem_cons_self a rest)
                  rw [AccountType.rowChecks, hsa] at hcheck
                  simp only [Bool.and_eq_true] at hcheck
                  exact absurd hcheck.2 h5

theorem is_valid_ok_iff (regs : List AccountType) :
    Registry.is_valid regs = Except.ok () ↔
      ((regs.map AccountType.prefix_).Nodup ∧
       (regs.map AccountType.network).Nodup ∧
       ∀ r ∈ regs, AccountType.rowChecks r = true) := by
  rw [Registry.is_valid, isValidFrom_ok_iff]
  simp

/-! Helper lemmas: the reserved-prefix set and the prefix-run compression. -/

theorem mem_reserved_prefixes (regs : List AccountType) (p : Nat) :
    p ∈ reserved_prefixes regs ↔
      ∃ r ∈ regs, r.standard_account = none ∧ r.prefix_ = p := by
  rw [reserved_prefixes]
  simp only [List.mem_map, List.mem_filter, Option.isNone_iff_eq_none]
  constructor
  · rintro ⟨r, ⟨hr, hnone⟩, hp⟩
    exact ⟨r, hr, hnone, hp⟩
  · rintro ⟨r, hr, hnone, hp⟩
    exact ⟨r, ⟨hr, hnone⟩, hp⟩

theorem consRunsGo_len (l : List Nat) :
    ∀ start prev, (consRunsGo start prev l).1.length = (consRunsGo start prev l).2.length := by
  induction l with
  | nil => intro start prev; rfl
  | cons x xs ih =>
    intro start prev
    rw [consRunsGo]
    by_cases hx : x = prev + 1
    · rw [if_pos hx]
      exact ih start x
    · rw [if_neg hx]
      simp only [List.length_cons]
      rw [ih x x]

theorem consRunsGo_cover (l : List Nat) :
    ∀ start prev p, start ≤ prev → List.Chain' (· < ·) (prev :: l) →
      ((∃ q ∈ (consRunsGo start prev l).1.zip (consRunsGo start prev l).2,
          q.1 ≤ p ∧ p ≤ q.2) ↔ ((start ≤ p ∧ p ≤ prev) ∨ p ∈ l)) := by
  induction l with
  | nil =>
    intro start prev p _ _
    rw [consRunsGo]
    simp
  | cons x xs ih =>
    intro start prev p hsp hchain
    have hpx : prev < x := (List.chain'_cons.mp hchain).1
    have hchain' : List.Chain' (· < ·) (x :: xs) := (List.chain'_cons.mp hchain).2
    rw [consRunsGo]
    by_cases hx : x = prev + 1
    · rw [if_pos hx]
      rw [ih start x p (by omega) hchain']
      constructor
      · rintro (⟨hl, hr⟩ | hm)
        · by_cases hpp : p ≤ prev
          · exact Or.inl ⟨hl, hpp⟩
          · have : p = x := by omega
            exact Or.inr (this ▸ List.mem_cons_self _ _)
        · exact Or.inr (List.mem_cons_of_mem _ hm)
      · rintro (⟨hl, hr⟩ | hm)
        · exact Or.inl ⟨hl, by omega⟩
        · rcases List.mem_cons.mp hm with he | hm'
          · exact Or.inl ⟨by omega, by omega⟩
          · exact Or.inr hm'
    · rw [if_neg hx]
      simp only [List.zip_cons_cons, List.mem_cons]
      constructor
      · rintro ⟨q, hq, hql, hqr⟩
        rcases hq with he | hm
        · subst he
          exact Or.inl ⟨hql, hqr⟩
        · have := (ih x x p (Nat.le_refl x) hchain').mp ⟨q, hm, hql, hqr⟩
          rcases this with ⟨hl, hr⟩ | hm'
          · have hpx' : p = x := by omega
            exact Or.inr (Or.inl hpx')
          · exact Or.inr (Or.inr hm')
      · rintro (⟨hl, hr⟩ | hm)
        · exact ⟨(start, prev), Or.inl rfl, hl, hr⟩
        · rcases hm with he | hm'
          · subst he
            obtain ⟨q, hq, hql, hqr⟩ :=
              (ih p p p (Nat.le_refl p) hchain').mpr (Or.inl ⟨Nat.le_refl p, Nat.le_refl p⟩)
            exact ⟨q, Or.inr hq, hql, hqr⟩
          · obtain ⟨q, hq, hql, hqr⟩ :=
              (ih x x p (Nat.le_refl x) hchain').mpr (Or.inr hm')
            exact ⟨q, Or.inr hq, hql, hqr⟩

theorem consRunsGo_sep (l : List Nat) :
    ∀ start prev, start ≤ prev → List.Chain' (· < ·) (prev :: l) →
      ((∀ q ∈ (consRunsGo start prev l).1.zip (consRunsGo start prev l).2,
          start ≤ q.1 ∧ q.1 ≤ q.2) ∧
       List.Pairwise (fun q q' => q.2 + 1 < q'.1)
         ((consRunsGo start prev l).1.zip (consRunsGo start prev l).2)) := by
  induction l with
  | nil =>
    intro start prev hsp _
    rw [consRunsGo]
    constructor
    · intro q hq
      rcases List.mem_cons.mp hq with he | hm
      · subst he
        exact ⟨Nat.le_refl _, hsp⟩
      · simp at hm
    · simp [List.zip_cons_cons]
  | cons x xs ih =>
    intro start prev hsp hchain
    have hpx : prev < x := (List.chain'_cons.mp hchain).1
    have hchain' : List.Chain' (· < ·) (x :: xs) := (List.chain'_cons.mp hchain).2
    rw [consRunsGo]
    by_cases hx : x = prev + 1
    · rw [if_pos hx]
      have := ih start x (by omega) hchain'
      exact this
    · rw [if_neg hx]
      have hgap : prev + 1 < x := by omega
      have hih := ih x x (Nat.le_refl x) hchain'
      simp only [List.zip_cons_cons]
      constructor
      · intro q hq
        rcases List.mem_cons.mp hq with he | hm
        · subst he
          exact ⟨Nat.le_refl _, hsp⟩
        · have := hih.1 q hm
          exact ⟨by omega, this.2⟩
      · rw [List.pairwise_cons]
        refine ⟨fun q hq => ?_, hih.2⟩
        have := hih.1 q hq
        omega

/-! The claims. -/

/-- C1, counterexample: `"42"` is not a known network name and parses as a
`u16`, yet `Ss58AddressFormat::try_from("42")` (which only delegates to the
registry name lookup, `src/address_format.rs` lines 81–87) returns
`ParseError` instead of the custom format wrapping 42. -/
theorem c1_counterexample :
    (("42" : String) ∉ ALL_SS58_ADDRESS_FORMAT_NAMES) ∧
    parse_u16 ("42") = some 42 ∧
    Ss58AddressFormat.tryFromStr ("42") = Except.error ⟨⟩ :=
  ⟨by decide, rfl, rfl⟩

/-- C1, amended: `Ss58AddressFormat::try_from(&str)` performs only the
name lookup; for every string that is not a known network name it returns
`ParseError`, with no numeric fallback. -/
theorem c1_amended (s : String) (hs : s ∉ ALL_SS58_ADDRESS_FORMAT_NAMES) :
    Ss58AddressFormat.tryFromStr s = Except.error ⟨⟩ := by
  rw [Ss58AddressFormat.tryFromStr, Ss58AddressFormatRegistry.tryFromStr]
  cases hbs : binary_search_by (fun nm => strOrd nm s) ("") ALL_SS58_ADDRESS_FORMAT_NAMES with
  | ok i =>
    exfalso
    obtain ⟨hi, heq⟩ := binary_search_by_ok _ _ _ _ hbs
    have hsi : ALL_SS58_ADDRESS_FORMAT_NAMES.getD i ("") = s := strOrd_eq _ _ heq
    rw [List.getD_eq_getElem _ _ hi] at hsi
    exact hs (hsi ▸ List.getElem_mem hi)
  | error e =>
    rfl

/-- C1, witness for the amended theorem at the concrete string `"42"`. -/
theorem c1_amended_witness :
    (("42" : String) ∉ ALL_SS58_ADDRESS_FORMAT_NAMES) ∧
    Ss58AddressFormat.tryFromStr ("42") = Except.error ⟨⟩ :=
  ⟨by decide, c1_amended ("42") (by decide)⟩

/-- C2: the generated `is_reserved` (modelled from §4.4 of the spec, its
`registry_gen.rs` source being generated) is true exactly on prefixes above
16384 and on prefixes of records without a `standardAccount`; in
particular prefix 16385 is reserved whatever the registry contains. -/
theorem c2_is_reserved :
    (∀ regs : List AccountType,
      Ss58AddressFormat.isReservedWith (reserved_prefixes regs)
        (Ss58AddressFormat.custom 16385) = true) ∧
    (∀ p : Nat, p < 65536 →
      (Ss58AddressFormat.is_reserved (Ss58AddressFormat.custom p) = true ↔
        16384 < p ∨ ∃ r ∈ registryData, r.standard_account = none ∧ r.prefix_ = p)) := by
  constructor
  · intro regs
    rw [Ss58AddressFormat.isReservedWith]
    simp [Ss58AddressFormat.custom]
  · intro p _
    rw [Ss58AddressFormat.is_reserved, Ss58AddressFormat.isReservedWith]
    simp only [Ss58AddressFormat.custom, Bool.or_eq_true, decide_eq_true_iff]
    rw [mem_reserved_prefixes]

/-- C2, witness at the reserved prefix 46 and the boundary prefix 16385. -/
theorem c2_is_reserved_witness :
    Ss58AddressFormat.isReservedWith (reserved_prefixes registryData)
      (Ss58AddressFormat.custom 16385) = true ∧
    (Ss58AddressFormat.is_reserved (Ss58AddressFormat.custom 46) = true ↔
      16384 < 46 ∨ ∃ r ∈ registryData, r.standard_account = none ∧ r.prefix_ = 46) :=
  ⟨c2_is_reserved.1 registryData, c2_is_reserved.2 46 (by decide)⟩

/-- C3, counterexample: the records with networks `foo-bar` and `fooBar`
have distinct network strings but the same derived identifier
`FooBarAccount`, and the validator of `build.rs` accepts the document
containing both, because its uniqueness check compares raw network
strings. -/
theorem c3_counterexample :
    AccountType.name ⟨1, "foo-bar", "Foo", none, [], [], none⟩ =
      AccountType.name ⟨2, "fooBar", "FooToo", none, [], [], none⟩ ∧
    (⟨1, "foo-bar", "Foo", none, [], [], none⟩ : AccountType).network ≠
      (⟨2, "fooBar", "FooToo", none, [], [], none⟩ : AccountType).network ∧
    Registry.is_valid
      [⟨1, "foo-bar", "Foo", none, [], [], none⟩,
       ⟨2, "fooBar", "FooToo", none, [], [], none⟩] = Except.ok () :=
  ⟨by decide, by decide, rfl⟩

/-- C3, amended: the uniqueness check of rule 2 is performed on the raw
`network` string, not on the derived identifier: a document validates
exactly when its prefixes are pairwise distinct, its raw network strings
are pairwise distinct and every record passes the per-record checks, so
records with distinct networks but coinciding derived identifiers are
accepted. -/
theorem c3_amended (regs : List AccountType) :
    Registry.is_valid regs = Except.ok () ↔
      ((regs.map AccountType.prefix_).Nodup ∧
       (regs.map AccountType.network).Nodup ∧
       ∀ r ∈ regs, AccountType.rowChecks r = true) :=
  is_valid_ok_iff regs

/-- C4, counterexample: a document whose single record has an empty
`network` string validates successfully, so the validator performs no
emptiness check. -/
theorem c4_counterexample :
    Registry.is_valid [⟨46, "", "Reserved placeholder", none, [], [], none⟩] =
      Except.ok () ∧
    (⟨46, "", "Reserved placeholder", none, [], [], none⟩ : AccountType).network = "" :=
  ⟨rfl, rfl⟩

/-- C4, amended: the validator of `build.rs` does not reject empty network
strings: any record with an empty network, matching `symbols`/`decimals`
lengths and no `standardAccount` passes validation on its own. -/
theorem c4_amended (r : AccountType) (h1 : r.network = "")
    (h2 : r.decimals.length = r.symbols.length) (h3 : r.standard_account = none) :
    Registry.is_valid [r] = Except.ok () := by
  rw [is_valid_ok_iff]
  refine ⟨by simp, by simp, ?_⟩
  intro x hx
  rcases List.mem_singleton.mp hx with rfl
  rw [AccountType.rowChecks, h1, h3]
  simp [h2]

/-- C4, witness for the amended theorem at a concrete empty-network
record. -/
theorem c4_amended_witness :
    ((⟨7, "", "Empty", none, [], [], none⟩ : AccountType).network = "") ∧
    Registry.is_valid [⟨7, "", "Empty", none, [], [], none⟩] = Except.ok () :=
  ⟨rfl, c4_amended ⟨7, "", "Empty", none, [], [], none⟩ rfl rfl rfl⟩

/-- C5: the identifier deriver is the pascal-case of the network string
with the literal suffix `Account`; it maps `polkadex` to
`PolkadexAccount` and `reserved46` to `Reserved46Account`, and the
pascal-case transformation is idempotent. -/
theorem c5_name_deriver :
    (∀ a : AccountType, AccountType.name a = to_pascal_case a.network ++ "Account") ∧
    AccountType.name ⟨89, "polkadex", "Polkadex Mainnet", some ("Sr25519"), [], [], none⟩ =
      "PolkadexAccount" ∧
    AccountType.name ⟨46, "reserved46", "Reserved", none, [], [], none⟩ =
      "Reserved46Account" ∧
    (∀ s : String, to_pascal_case (to_pascal_case s) = to_pascal_case s) :=
  ⟨fun _ => rfl, by decide, by decide, to_pascal_case_idem⟩

/-- C6: converting any known registry variant to an `Ss58AddressFormat`
and back through `TryFrom<Ss58AddressFormat>` (a binary search of the
prefix in `PREFIX_TO_INDEX`) recovers the same variant. -/
theorem c6_roundtrip (v : Ss58AddressFormatRegistry) :
    Ss58AddressFormatRegistry.tryFromFormat (Ss58AddressFormat.ofRegistry v) =
      Except.ok v := by
  cases v <;> rfl

/-- C7: the token formatters of `src/token.rs`: the `I❤U` example of the
doctest, the general shapes of `Display` and `Debug` (grouped and
ungrouped integer part with the grouped raw amount in parentheses), and
the fact that the fractional field is below 1000 whenever at least three
decimals exist, so the `{:0>3}` padding renders exactly three digits. -/
theorem c7_token_format :
    Token.display ⟨"I❤U", 8, 100000000000⟩ = "1_000,000 I❤U" ∧
    Token.debugStr ⟨"I❤U", 8, 100000000000⟩ = "1000,000 I❤U (100_000_000_000)" ∧
    (∀ t : Token,
      Token.display t =
        to_formatted_string (t.amount / token_multiplier t.decimals) ++ "," ++
          pad3 (t.amount % token_multiplier t.decimals / token_fraction_divisor t.decimals) ++
          " " ++ t.name) ∧
    (∀ t : Token,
      Token.debugStr t =
        Nat.repr (t.amount / token_multiplier t.decimals) ++ "," ++
          pad3 (t.amount % token_multiplier t.decimals / token_fraction_divisor t.decimals) ++
          " " ++ t.name ++ " (" ++ to_formatted_string t.amount ++ ")") ∧
    (∀ t : Token, 3 ≤ t.decimals →
      t.amount % token_multiplier t.decimals / token_fraction_divisor t.decimals < 1000) := by
  refine ⟨by decide, by decide, fun _ => rfl, fun _ => rfl, ?_⟩
  intro t ht
  have hmul : token_multiplier t.decimals = 10 ^ (t.decimals - 3) * 1000 := by
    rw [token_multiplier]
    calc 10 ^ t.decimals = 10 ^ (t.decimals - 3 + 3) := by rw [Nat.sub_add_cancel ht]
    _ = 10 ^ (t.decimals - 3) * 10 ^ 3 := pow_add 10 _ 3
    _ = 10 ^ (t.decimals - 3) * 1000 := by norm_num
  have hdiv : token_fraction_divisor t.decimals = 10 ^ (t.decimals - 3) := by
    rw [token_fraction_divisor, hmul, Nat.mul_div_cancel _ (by norm_num : (0:Nat) < 1000)]
  have hmod : t.amount % token_multiplier t.decimals < 10 ^ (t.decimals - 3) * 1000 := by
    rw [← hmul]
    exact Nat.mod_lt _ (by rw [token_multiplier]; exact pow_pos (by norm_num) _)
  rw [hdiv, Nat.div_lt_iff_lt_mul (pow_pos (by norm_num) _)]
  calc t.amount % token_multiplier t.decimals < 10 ^ (t.decimals - 3) * 1000 := hmod
  _ = 1000 * 10 ^ (t.decimals - 3) := Nat.mul_comm _ _

/-- C7, witness for the fractional-bound conjunct at the doctest token. -/
theorem c7_token_format_witness :
    3 ≤ (⟨"I❤U", 8, 100000000000⟩ : Token).decimals ∧
    (⟨"I❤U", 8, 100000000000⟩ : Token).amount %
        token_multiplier (⟨"I❤U", 8, 100000000000⟩ : Token).decimals /
        token_fraction_divisor (⟨"I❤U", 8, 100000000000⟩ : Token).decimals < 1000 :=
  ⟨by decide, c7_token_format.2.2.2.2 ⟨"I❤U", 8, 100000000000⟩ (by decide)⟩

/-- C8: `consecutive_runs` (modelled from §4.3(f) of the spec, its source
being the generator missing from the tree): the three boundary examples,
and for every strictly sorted input the two arrays have equal length and
their closed intervals are pairwise separated, each interval is
well-formed and together they cover exactly the input set. -/
theorem c8_consecutive_runs :
    consecutive_runs [] = ([], []) ∧
    consecutive_runs [5] = ([5], [5]) ∧
    consecutive_runs [1, 2, 3, 7, 8, 10] = ([1, 7, 10], [3, 8, 10]) ∧
    (∀ l : List Nat, List.Chain' (· < ·) l →
      (consecutive_runs l).1.length = (consecutive_runs l).2.length ∧
      (∀ p : Nat,
        (∃ q ∈ (consecutive_runs l).1.zip (consecutive_runs l).2, q.1 ≤ p ∧ p ≤ q.2) ↔
          p ∈ l) ∧
      (∀ q ∈ (consecutive_runs l).1.zip (consecutive_runs l).2, q.1 ≤ q.2) ∧
      List.Pairwise (fun q q' => q.2 + 1 < q'.1)
        ((consecutive_runs l).1.zip (consecutive_runs l).2)) := by
  refine ⟨rfl, rfl, by decide, ?_⟩
  intro l hchain
  cases l with
  | nil => simp [consecutive_runs]
  | cons x xs =>
    rw [consecutive_runs]
    have hsep := consRunsGo_sep xs x x (Nat.le_refl x) hchain
    refine ⟨consRunsGo_len xs x x, ?_, fun q hq => (hsep.1 q hq).2, hsep.2⟩
    intro p
    rw [consRunsGo_cover xs x x p (Nat.le_refl x) hchain]
    constructor
    · rintro (⟨hl, hr⟩ | hm)
      · have : p = x := Nat.le_antisymm hr hl
        exact this ▸ List.mem_cons_self _ _
      · exact List.mem_cons_of_mem _ hm
    · intro hm
      rcases List.mem_cons.mp hm with he | hm'
      · exact Or.inl ⟨Nat.le_of_eq he.symm, Nat.le_of_eq he⟩
      · exact Or.inr hm'

/-- C8, witness: the partition statement applied to the sorted list
`[1, 2, 3, 7, 8, 10]` at the probe point 7. -/
theorem c8_consecutive_runs_witness :
    List.Chain' (· < ·) [1, 2, 3, 7, 8, 10] ∧
    ((∃ q ∈ (consecutive_runs [1, 2, 3, 7, 8, 10]).1.zip
        (consecutive_runs [1, 2, 3, 7, 8, 10]).2, q.1 ≤ 7 ∧ 7 ≤ q.2) ↔
      7 ∈ [1, 2, 3, 7, 8, 10]) :=
  ⟨by norm_num [List.chain'_cons], ((c8_consecutive_runs.2.2.2 [1, 2, 3, 7, 8, 10]
    (by norm_num [List.chain'_cons])).2.1) 7⟩

/-- C9: for every `u16` prefix, `Display` of `Ss58AddressFormat`
(`src/address_format.rs` lines 35–47) renders the network name of the
registry record carrying that prefix when one exists, and the decimal
representation of the prefix otherwise. -/
theorem c9_display (p : Nat) (hp : p < 65536) :
    Ss58AddressFormat.displayStr ⟨p⟩ =
      (Option.map AccountType.network
        (registryData.find? (fun r => r.prefix_ == p))).getD (Nat.repr p) := by
  by_cases hk : p = 0 ∨ p = 2 ∨ p = 18 ∨ p = 46 ∨ p = 89
  · rcases hk with h | h | h | h | h <;> subst h <;> rfl
  · push_neg at hk
    have hfind : registryData.find? (fun r => r.prefix_ == p) = none := by
      rw [List.find?_eq_none]
      intro r hr
      rw [registryData] at hr
      simp only [List.mem_cons, List.not_mem_nil, or_false] at hr
      rcases hr with rfl | rfl | rfl | rfl | rfl <;> simp <;> omega
    rw [hfind]
    rw [Ss58AddressFormat.displayStr]
    cases hbs : binary_search_by (fun e => natOrd e.1 (⟨p⟩ : Ss58AddressFormat).prefix_)
        (0, 0) PREFIX_TO_INDEX with
    | ok i =>
      exfalso
      obtain ⟨hi, heq⟩ := binary_search_by_ok _ _ _ _ hbs
      have hkey : (PREFIX_TO_INDEX.getD i (0, 0)).1 = p := natOrd_eq _ _ heq
      have hlen : PREFIX_TO_INDEX.length = 5 := rfl
      rw [hlen] at hi
      have htbl : PREFIX_TO_INDEX = [(0, 3), (2, 1), (18, 0), (46, 4), (89, 2)] := rfl
      interval_cases i <;> rw [htbl] at hkey <;> simp at hkey <;> omega
    | error e =>
      rfl

/-- C9, witness at the known prefix 0 (rendered `polkadot`) via the
theorem. -/
theorem c9_display_witness :
    (0 < 65536) ∧
    Ss58AddressFormat.displayStr ⟨0⟩ =
      (Option.map AccountType.network
        (registryData.find? (fun r => r.prefix_ == 0))).getD (Nat.repr 0) :=
  ⟨by decide, c9_display 0 (by decide)⟩

/-- C10: for every `u8` decimals value, the token formatters' two partial
operations — the divisor `multiplier / 1000` being non-zero and
`10 ^ decimals` fitting `u128` — both succeed exactly when
`3 ≤ decimals ≤ 38`. -/
theorem c10_format_total (d : Nat) (hd : d < 256) :
    (token_fraction_divisor d ≠ 0 ∧ token_multiplier d < 2 ^ 128) ↔
      (3 ≤ d ∧ d ≤ 38) := by
  rw [token_fraction_divisor, token_multiplier]
  constructor
  · rintro ⟨hdiv, hmul⟩
    constructor
    · by_contra hlt
      have h2 : d ≤ 2 := by omega
      have h10 : (10 : Nat) ^ d ≤ 100 := by
        calc (10 : Nat) ^ d ≤ 10 ^ 2 := Nat.pow_le_pow_right (by norm_num) h2
        _ = 100 := by norm_num
      exact hdiv (Nat.div_eq_of_lt (by omega))
    · by_contra hgt
      have h39 : 39 ≤ d := by omega
      have h10 : (10 : Nat) ^ 39 ≤ 10 ^ d := Nat.pow_le_pow_right (by norm_num) h39
      have hcontr : (10 : Nat) ^ 39 < 2 ^ 128 := lt_of_le_of_lt h10 hmul
      norm_num at hcontr
  · rintro ⟨h3, h38⟩
    constructor
    · have h10 : 1000 ≤ (10 : Nat) ^ d := by
        calc (1000 : Nat) = 10 ^ 3 := by norm_num
        _ ≤ 10 ^ d := Nat.pow_le_pow_right (by norm_num) h3
      have h1 : 1 ≤ (10 : Nat) ^ d / 1000 := by
        rw [Nat.le_div_iff_mul_le (by norm_num : (0:Nat) < 1000)]
        omega
      omega
    · have h10 : (10 : Nat) ^ d ≤ 10 ^ 38 := Nat.pow_le_pow_right (by norm_num) h38
      calc (10 : Nat) ^ d ≤ 10 ^ 38 := h10
      _ < 2 ^ 128 := by norm_num

/-- C10, witness at the doctest's eight decimals. -/
theorem c10_format_total_witness :
    (8 < 256) ∧
    ((token_fraction_divisor 8 ≠ 0 ∧ token_multiplier 8 < 2 ^ 128) ↔ (3 ≤ 8 ∧ 8 ≤ 38)) :=
  ⟨by decide, c10_format_total 8 (by decide)⟩
